import Mathlib

/-!
Verification development for the fixed-income cash-flow and yield engine
found in investments/utils.py and investments/instruments.py.

Modelling conventions:
- Python floats are modelled as exact rationals `ℚ`.
- `datetime.date` values are modelled as integers `ℤ` (days); subtraction of
  two dates, i.e. `(d1 - d2).days`, becomes integer subtraction.
- fallible code (code that may raise) returns `Except`; the error payload
  records which kind of Python exception is raised.
- `round(x, 2)` is Python banker rounding (round half to even) at two
  decimal places, modelled exactly on `ℚ`.
-/

namespace Investments

/-- Kinds of Python exceptions relevant to the embedded code. -/
inductive PyError where
  | valueError : PyError
  | typeError : PyError
deriving DecidableEq

/-- Python `round(100 * q)` helper: round half to even, on exact rationals. -/
def roundHalfEven (q : ℚ) : ℤ :=
  let n : ℤ := ⌊q⌋
  let frac : ℚ := q - (n : ℚ)
  if frac < 1 / 2 then n
  else if 1 / 2 < frac then n + 1
  else if n % 2 = 0 then n else n + 1

/-- Python `round(q, 2)`: round to two decimal places, half to even. -/
def round2 (q : ℚ) : ℚ := (roundHalfEven (100 * q) : ℚ) / 100

/-! ## investments/utils.py -/

/-- `approx_derivative_symmetric(f, x, h)`: `(f(x + h) - f(x - h)) / (2.0 * h)`. -/
def approx_derivative_symmetric (f : ℚ → ℚ) (x : ℚ) (h : ℚ) : ℚ :=
  (f (x + h) - f (x - h)) / (2 * h)

/-- Outcomes by which `find_root_newton` can fail: `ZeroDivisionError` from the
float division `cur_f / f_der(cur_x)` when the derivative is exactly zero, and
the `ValueError` raised after the loop when the final check fails. -/
inductive NewtonError where
  | divByZero : NewtonError
  | notConverged : NewtonError
deriving DecidableEq

/-- The `while` loop of `find_root_newton` plus the final check after it.
State: current iterate `cur_x`, iterations done so far `num_iter`, and the
remaining iteration budget `max_iter - num_iter`.  The loop runs while
`num_iter < max_iter and observed_eps > eps`; afterwards the source returns
the triple only under the strict check `observed_eps < eps` and otherwise
raises `ValueError`. -/
def newtonLoop (f f_der : ℚ → ℚ) (eps : ℚ) :
    ℚ → ℕ → ℕ → Except NewtonError (ℚ × ℕ × ℚ)
  | cur_x, num_iter, 0 =>
    if |f cur_x| < eps then Except.ok (cur_x, num_iter, |f cur_x|)
    else Except.error NewtonError.notConverged
  | cur_x, num_iter, rem + 1 =>
    if eps < |f cur_x| then
      if f_der cur_x = 0 then Except.error NewtonError.divByZero
      else newtonLoop f f_der eps (cur_x - f cur_x / f_der cur_x) (num_iter + 1) rem
    else if |f cur_x| < eps then Except.ok (cur_x, num_iter, |f cur_x|)
    else Except.error NewtonError.notConverged

/-- `find_root_newton(f, init_guess, eps, max_iter, f_der)`.  When no
derivative is supplied the source uses the symmetric finite difference with
step `1.0E-7`. -/
def find_root_newton (f : ℚ → ℚ) (init_guess : ℚ) (eps : ℚ) (max_iter : ℕ)
    (f_der : Option (ℚ → ℚ)) : Except NewtonError (ℚ × ℕ × ℚ) :=
  let fd : ℚ → ℚ :=
    match f_der with
    | some g => g
    | none => fun x => approx_derivative_symmetric f x (1 / 10 ^ 7)
  newtonLoop f fd eps init_guess 0 max_iter

/-! ## investments/instruments.py : data model -/

/-- `YEAR_BASE = 365`. -/
def YEAR_BASE : ℚ := 365

structure CouponScheduleEntry where
  coupon_date : ℤ
  record_date : Option ℤ
  start_date : ℤ
  value : ℚ
  yearly_prc : ℚ
deriving DecidableEq

/-- The checks of `CouponScheduleEntry.__post_init__` (the `None` checks on
mandatory fields cannot fail in this typed embedding). -/
def CouponScheduleEntry.post_init_ok (c : CouponScheduleEntry) : Prop :=
  0 ≤ c.value ∧ 0 ≤ c.yearly_prc ∧
    (∀ r ∈ c.record_date, r ≤ c.coupon_date) ∧
    c.start_date ≤ c.coupon_date

structure AmortizationScheduleEntry where
  amort_date : ℤ
  value_prc : ℚ
  value : ℚ
deriving DecidableEq

/-- The checks of `AmortizationScheduleEntry.__post_init__`. -/
def AmortizationScheduleEntry.post_init_ok (a : AmortizationScheduleEntry) : Prop :=
  0 ≤ a.value ∧ 0 ≤ a.value_prc

structure Bond where
  coupons : List CouponScheduleEntry
  amortizations : List AmortizationScheduleEntry
  isin : Option String := none
  name : Option String := none
  initial_notional : ℚ := 1000
  notional_ccy : String := "RUB"
deriving DecidableEq

/-- `Bond.__check_dates_ascending`: the loop raises as soon as a consecutive
pair satisfies `dt <= prev_dt`, so the schedule passes exactly when every
consecutive pair is strictly increasing. -/
def dates_ascending_ok : List ℤ → Prop
  | [] => True
  | [_] => True
  | d₁ :: d₂ :: rest => d₁ < d₂ ∧ dates_ascending_ok (d₂ :: rest)

/-- The checks of `Bond.__post_init__` (again, the `None` checks on mandatory
fields cannot fail in this typed embedding). -/
def Bond.post_init_ok (b : Bond) : Prop :=
  dates_ascending_ok (b.amortizations.map AmortizationScheduleEntry.amort_date) ∧
  dates_ascending_ok (b.coupons.map CouponScheduleEntry.coupon_date) ∧
  dates_ascending_ok (b.coupons.map CouponScheduleEntry.start_date) ∧
  (b.amortizations.map AmortizationScheduleEntry.value_prc).sum = 100 ∧
  (b.amortizations.map AmortizationScheduleEntry.value).sum = b.initial_notional

/-- A bond that was actually constructed: every schedule entry passed its own
`__post_init__` and the bond passed `Bond.__post_init__`. -/
def Bond.valid (b : Bond) : Prop :=
  (∀ c ∈ b.coupons, c.post_init_ok) ∧
  (∀ a ∈ b.amortizations, a.post_init_ok) ∧
  b.post_init_ok

/-! ## investments/instruments.py : Bond operations -/

/-- The accumulation loop of `notional_on_date`: iterate over the schedule,
adding `value_prc` while `am.amort_date < date`, and `break` at the first
entry that fails the test. -/
def accum_prc_before (ams : List AmortizationScheduleEntry) (date : ℤ) : ℚ :=
  ((ams.takeWhile fun am => decide (am.amort_date < date)).map
    AmortizationScheduleEntry.value_prc).sum

/-- `Bond.notional_on_date`.  The source indexes `amortizations[0]` and
`amortizations[-1]`; on an empty schedule it would raise `IndexError`, but a
constructed bond always has at least one amortization entry (the percentages
must sum to 100), so the `[]` branch below is unreachable for valid bonds. -/
def Bond.notional_on_date (b : Bond) (date : ℤ) : ℚ :=
  match b.amortizations with
  | [] => 0
  | a :: rest =>
    if date < a.amort_date then b.initial_notional
    else if ((a :: rest).getLast (List.cons_ne_nil a rest)).amort_date < date then 0
    else b.initial_notional * (1 - accum_prc_before (a :: rest) date / 100)

/-- The search `next(filter(lambda c: c[1].coupon_date >= dt, enumerate(coupons)), None)`
of `accrued_coupon_on_date`, together with the predecessor lookup
`coupons[idx - 1]`: walk the list keeping the element before the cursor;
return the first entry whose `coupon_date ≥ dt` paired with its predecessor
(`none` when that entry is the head, i.e. `idx == 0`). -/
def closest_coupon_search (dt : ℤ) :
    Option CouponScheduleEntry → List CouponScheduleEntry →
    Option (Option CouponScheduleEntry × CouponScheduleEntry)
  | _, [] => none
  | prev, c :: rest =>
    if dt ≤ c.coupon_date then some (prev, c)
    else closest_coupon_search dt (some c) rest

/-- `Bond.accrued_coupon_on_date`.  When no coupon has `coupon_date ≥ dt`,
the source evaluates `idx, closest_coupon = None`: unpacking `None` raises
`TypeError` before the `if closest_coupon is None: return 0` line can run,
so the no-coupon case is an error, modelled by `PyError.typeError`. -/
def Bond.accrued_coupon_on_date (b : Bond) (dt : ℤ) : Except PyError ℚ :=
  match closest_coupon_search dt none b.coupons with
  | none => Except.error PyError.typeError
  | some (prev, closest) =>
    let eff_notional : ℚ := b.notional_on_date dt
    let coupon_start : ℤ :=
      match prev with
      | none => closest.start_date
      | some p => p.coupon_date
    let year_fract : ℚ := ((dt - coupon_start : ℤ) : ℚ) / YEAR_BASE
    Except.ok (round2 (eff_notional * (closest.yearly_prc / 100) * year_fract))

/-- `Bond.payments_since_date`: inclusive filters over both schedules. -/
def Bond.payments_since_date (b : Bond) (dt : ℤ) :
    List CouponScheduleEntry × List AmortizationScheduleEntry :=
  (b.coupons.filter fun c => decide (dt ≤ c.coupon_date),
   b.amortizations.filter fun am => decide (dt ≤ am.amort_date))

/-- Flow of money at a specified date; negative means pay, positive receive. -/
structure CashFlow where
  date : ℤ
  flow : ℚ
deriving DecidableEq

/-- The part of `Bond.yield_to_maturity` that assembles the `CashFlow` list
handed to `CashFlows` (everything up to the IRR solve): the two precondition
checks, the forward payments taken since `date_settle`, the default accrued
coupon computed on `date_buy`, the purchase outflow and the forward inflows. -/
def Bond.ytm_flows (b : Bond) (price_buy_prc : ℚ) (date_buy date_settle : ℤ)
    (accrued_coupon : Option ℚ) (coupon_tax_prc : Option ℚ) (commission : Option ℚ) :
    Except PyError (List CashFlow) :=
  if price_buy_prc < 0 then Except.error PyError.valueError
  else if date_settle < date_buy then Except.error PyError.valueError
  else
    let pays := b.payments_since_date date_settle
    let acc : Except PyError ℚ :=
      match accrued_coupon with
      | some v => Except.ok v
      | none => b.accrued_coupon_on_date date_buy
    match acc with
    | Except.error e => Except.error e
    | Except.ok ac =>
      let price_buy : ℚ := (price_buy_prc / 100) * b.notional_on_date date_buy + ac
      let price_buy : ℚ :=
        match commission with
        | none => price_buy
        | some comm => price_buy + comm
      let coupon_flows := pays.1.map fun c =>
        CashFlow.mk c.coupon_date
          (match coupon_tax_prc with
           | none => c.value
           | some tax => c.value * (1 - tax))
      let amort_flows := pays.2.map fun am => CashFlow.mk am.amort_date am.value
      Except.ok (CashFlow.mk date_buy (-price_buy) :: (coupon_flows ++ amort_flows))

/-- `CashFlows.__init__`: at least two flows, at least one strictly positive
and at least one strictly negative, otherwise `ValueError`; on success the
flow list is stored unchanged. -/
def CashFlows.init (flows : List CashFlow) : Except PyError (List CashFlow) :=
  if flows.length < 2 then Except.error PyError.valueError
  else if !(flows.any fun fl => decide (0 < fl.flow)) then Except.error PyError.valueError
  else if !(flows.any fun fl => decide (fl.flow < 0)) then Except.error PyError.valueError
  else Except.ok flows

/-! ## Concrete schedules used to witness the theorems -/

def sampleCoupon1 : CouponScheduleEntry := ⟨100, none, 0, 10, 8⟩

def sampleCoupon2 : CouponScheduleEntry := ⟨200, none, 100, 10, 8⟩

def sampleAmort1 : AmortizationScheduleEntry := ⟨100, 40, 400⟩

def sampleAmort2 : AmortizationScheduleEntry := ⟨200, 60, 600⟩

def sampleBond : Bond :=
  ⟨[sampleCoupon1, sampleCoupon2], [sampleAmort1, sampleAmort2], none, none, 1000, "RUB"⟩

lemma sampleBond_valid : sampleBond.valid := by
  refine ⟨?_, ?_, ?_, ?_, ?_, ?_, ?_⟩ <;>
    simp [sampleBond, sampleCoupon1, sampleCoupon2, sampleAmort1, sampleAmort2,
      CouponScheduleEntry.post_init_ok, AmortizationScheduleEntry.post_init_ok,
      dates_ascending_ok] <;> norm_num

/-! ## Helper lemmas about the schedule searches -/

lemma dates_ascending_ok_iff (l : List ℤ) :
    dates_ascending_ok l ↔ l.Chain' (· < ·) := by
  induction l with
  | nil => simp [dates_ascending_ok]
  | cons a tl ih =>
    cases tl with
    | nil => simp [dates_ascending_ok]
    | cons b tl2 =>
      rw [dates_ascending_ok, List.chain'_cons, ih]

lemma dates_ascending_ok_iff_pairwise (l : List ℤ) :
    dates_ascending_ok l ↔ l.Pairwise (· < ·) := by
  rw [dates_ascending_ok_iff, List.chain'_iff_pairwise]

lemma mem_of_mem_takeWhile {α : Type} (p : α → Bool) (l : List α) (x : α)
    (hx : x ∈ l.takeWhile p) : x ∈ l := by
  induction l with
  | nil => simp at hx
  | cons a tl ih =>
    cases hpa : p a with
    | false => simp [List.takeWhile_cons, hpa] at hx
    | true =>
      simp only [List.takeWhile_cons, hpa, if_true, List.mem_cons] at hx
      rcases hx with h | h
      · exact List.mem_cons.mpr (Or.inl h)
      · exact List.mem_cons_of_mem _ (ih h)

lemma mem_of_mem_dropWhile {α : Type} (p : α → Bool) (l : List α) (x : α)
    (hx : x ∈ l.dropWhile p) : x ∈ l := by
  induction l with
  | nil => simp at hx
  | cons a tl ih =>
    cases hpa : p a with
    | false =>
      simp only [List.dropWhile_cons, hpa, if_false] at hx
      exact hx
    | true =>
      simp only [List.dropWhile_cons, hpa, if_true] at hx
      exact List.mem_cons_of_mem _ (ih hx)

/-- On a schedule with strictly ascending dates, the `break` in the
accumulation loop loses nothing: taking while `amort_date < d` is the same
as filtering by `amort_date < d`. -/
lemma takeWhile_lt_eq_filter (ams : List AmortizationScheduleEntry)
    (hs : ams.Pairwise fun x y => x.amort_date < y.amort_date) (d : ℤ) :
    (ams.takeWhile fun am => decide (am.amort_date < d)) =
      ams.filter fun am => decide (am.amort_date < d) := by
  induction ams with
  | nil => rfl
  | cons a tl ih =>
    rw [List.pairwise_cons] at hs
    by_cases hlt : a.amort_date < d
    · rw [List.takeWhile_cons, List.filter_cons]
      simp [hlt, ih hs.2]
    · have hnil : (tl.filter fun am => decide (am.amort_date < d)) = [] := by
        rw [List.filter_eq_nil_iff]
        intro x hxmem
        simp only [decide_eq_true_eq]
        have hax := hs.1 x hxmem
        omega
      rw [List.takeWhile_cons, List.filter_cons]
      simp [hlt, hnil]

lemma accum_prc_before_nonneg (ams : List AmortizationScheduleEntry)
    (hpos : ∀ a ∈ ams, 0 ≤ a.value_prc) (d : ℤ) :
    0 ≤ accum_prc_before ams d := by
  apply List.sum_nonneg
  intro x hx
  rcases List.mem_map.mp hx with ⟨a, ha, rfl⟩
  exact hpos a (mem_of_mem_takeWhile _ _ _ ha)

lemma accum_prc_before_le_sum (ams : List AmortizationScheduleEntry)
    (hpos : ∀ a ∈ ams, 0 ≤ a.value_prc) (d : ℤ) :
    accum_prc_before ams d ≤ (ams.map AmortizationScheduleEntry.value_prc).sum := by
  have hsplit := List.takeWhile_append_dropWhile
    (p := fun am => decide (am.amort_date < d)) (l := ams)
  have hdrop : 0 ≤ ((ams.dropWhile fun am => decide (am.amort_date < d)).map
      AmortizationScheduleEntry.value_prc).sum := by
    apply List.sum_nonneg
    intro x hx
    rcases List.mem_map.mp hx with ⟨a, ha, rfl⟩
    exact hpos a (mem_of_mem_dropWhile _ _ _ ha)
  calc accum_prc_before ams d
      ≤ accum_prc_before ams d + ((ams.dropWhile fun am => decide (am.amort_date < d)).map
          AmortizationScheduleEntry.value_prc).sum := by linarith
    _ = (ams.map AmortizationScheduleEntry.value_prc).sum := by
        rw [accum_prc_before, ← List.sum_append, ← List.map_append, hsplit]

lemma accum_prc_before_mono (ams : List AmortizationScheduleEntry)
    (hpos : ∀ a ∈ ams, 0 ≤ a.value_prc) (d₁ d₂ : ℤ) (hd : d₁ ≤ d₂) :
    accum_prc_before ams d₁ ≤ accum_prc_before ams d₂ := by
  induction ams with
  | nil => simp [accum_prc_before]
  | cons a tl ih =>
    have hposTl : ∀ x ∈ tl, 0 ≤ x.value_prc := fun x hx => hpos x (List.mem_cons_of_mem _ hx)
    by_cases h1 : a.amort_date < d₁
    · have h2 : a.amort_date < d₂ := lt_of_lt_of_le h1 hd
      rw [accum_prc_before, accum_prc_before, List.takeWhile_cons, List.takeWhile_cons]
      simp only [h1, h2, decide_True, if_true, List.map_cons, List.sum_cons]
      exact add_le_add_left (ih hposTl) _
    · have hzero : accum_prc_before (a :: tl) d₁ = 0 := by
        rw [accum_prc_before, List.takeWhile_cons]
        simp [h1]
      rw [hzero]
      exact accum_prc_before_nonneg _ hpos d₂

/-- On a strictly ascending schedule, the first amortization date is at most
the last one. -/
lemma head_amort_le_getLast (a : AmortizationScheduleEntry)
    (rest : List AmortizationScheduleEntry)
    (hs : (a :: rest).Pairwise fun x y => x.amort_date < y.amort_date) :
    a.amort_date ≤ ((a :: rest).getLast (List.cons_ne_nil a rest)).amort_date := by
  have hmem := List.getLast_mem (List.cons_ne_nil a rest)
  rw [List.pairwise_cons] at hs
  rcases List.mem_cons.mp hmem with heq | hmem2
  · rw [heq]
  · exact le_of_lt (hs.1 _ hmem2)

/-- A constructed bond has at least one amortization entry: the percentages
sum to 100, while an empty schedule sums to 0. -/
lemma Bond.valid_amortizations_ne_nil (b : Bond) (hv : b.valid) :
    b.amortizations ≠ [] := by
  intro hnil
  have hsum := hv.2.2.2.2.2.1
  rw [hnil] at hsum
  norm_num at hsum

/-- The entry sort order used throughout: a valid bond has pairwise strictly
ascending amortization dates. -/
lemma Bond.valid_amort_pairwise (b : Bond) (hv : b.valid) :
    b.amortizations.Pairwise fun x y => x.amort_date < y.amort_date := by
  have h := hv.2.2.1
  rw [dates_ascending_ok_iff_pairwise, List.pairwise_map] at h
  exact h

/-! ## Claims about the root finder -/

/-- One unfolding of the Newton iteration loop while budget remains. -/
lemma newtonLoop_succ (f f_der : ℚ → ℚ) (eps curX : ℚ) (n rem : ℕ) :
    newtonLoop f f_der eps curX n (rem + 1) =
      if eps < |f curX| then
        if f_der curX = 0 then Except.error NewtonError.divByZero
        else newtonLoop f f_der eps (curX - f curX / f_der curX) (n + 1) rem
      else if |f curX| < eps then Except.ok (curX, n, |f curX|)
      else Except.error NewtonError.notConverged := rfl

/-- Claim C1 (code bug): with `f = id`, initial guess `1`, `eps = 1`,
the initial iterate already satisfies the stopping tolerance
`|f(x)| ≤ eps` (second conjunct), so per the specification the call should
return `(1, 0, 1)`; instead the source raises the non-convergence
`ValueError`, because the final check after the loop uses the strict
comparison `observed_eps < eps` while the loop stops on `observed_eps ≤ eps`. -/
theorem find_root_newton_eps_boundary_not_converged :
    find_root_newton (fun x => x) 1 1 1000 none =
      Except.error NewtonError.notConverged ∧ |(1 : ℚ)| ≤ 1 := by
  constructor
  · show newtonLoop (fun x => x)
      (fun x => approx_derivative_symmetric (fun x => x) x (1 / 10 ^ 7)) 1 1 0 1000 =
        Except.error NewtonError.notConverged
    rw [show (1000 : ℕ) = 999 + 1 from rfl, newtonLoop_succ]
    norm_num
  · norm_num

/-- Claim C10: the Newton update divides by the derivative without a zero
guard.  For the constant function `f(x) = 1` the symmetric finite-difference
derivative is exactly `0` at every point, so with the default derivative,
default tolerance `1e-10` and default 1000 iterations the call fails with a
division-by-zero error instead of the documented non-convergence error. -/
theorem find_root_newton_zero_derivative_div_by_zero :
    find_root_newton (fun _ => 1) 0 (1 / 10 ^ 10) 1000 none =
      Except.error NewtonError.divByZero := by
  show newtonLoop (fun _ => 1)
    (fun x => approx_derivative_symmetric (fun _ => 1) x (1 / 10 ^ 7)) (1 / 10 ^ 10) 0 0 1000 =
      Except.error NewtonError.divByZero
  rw [show (1000 : ℕ) = 999 + 1 from rfl, newtonLoop_succ]
  norm_num [approx_derivative_symmetric]

/-! ## Claim about CashFlows construction -/

/-- Claim C8: `CashFlows` construction succeeds (returning the flows
unchanged) exactly when at least two flows are supplied, at least one is
strictly positive and at least one is strictly negative; it raises the
insufficient-data `ValueError` exactly when fewer than two flows are given
or all flows share the same (weak) sign. -/
theorem cash_flows_init_spec (flows : List CashFlow) :
    (CashFlows.init flows = Except.ok flows ↔
      2 ≤ flows.length ∧ (∃ g ∈ flows, 0 < g.flow) ∧ (∃ g ∈ flows, g.flow < 0)) ∧
    (CashFlows.init flows = Except.error PyError.valueError ↔
      flows.length < 2 ∨ (∀ g ∈ flows, g.flow ≤ 0) ∨ (∀ g ∈ flows, 0 ≤ g.flow)) := by
  have hpos : (flows.any fun fl => decide (0 < fl.flow)) = true ↔ ∃ g ∈ flows, 0 < g.flow := by
    simp [List.any_eq_true]
  have hneg : (flows.any fun fl => decide (fl.flow < 0)) = true ↔ ∃ g ∈ flows, g.flow < 0 := by
    simp [List.any_eq_true]
  unfold CashFlows.init
  split_ifs with h1 h2 h3
  · exact ⟨⟨fun h => by simp at h, fun h => absurd h.1 (by omega)⟩,
      ⟨fun _ => Or.inl h1, fun _ => rfl⟩⟩
  · have hap : ¬ ∃ g ∈ flows, 0 < g.flow := by
      rw [← hpos]; simpa using h2
    have hall : ∀ g ∈ flows, g.flow ≤ 0 := by
      intro g hg
      by_contra hc
      push_neg at hc
      exact hap ⟨g, hg, hc⟩
    exact ⟨⟨fun h => by simp at h, fun h => absurd h.2.1 hap⟩,
      ⟨fun _ => Or.inr (Or.inl hall), fun _ => rfl⟩⟩
  · have han : ¬ ∃ g ∈ flows, g.flow < 0 := by
      rw [← hneg]; simpa using h3
    have hall : ∀ g ∈ flows, 0 ≤ g.flow := by
      intro g hg
      by_contra hc
      push_neg at hc
      exact han ⟨g, hg, hc⟩
    exact ⟨⟨fun h => by simp at h, fun h => absurd h.2.2 han⟩,
      ⟨fun _ => Or.inr (Or.inr hall), fun _ => rfl⟩⟩
  · push_neg at h1
    have hap : ∃ g ∈ flows, 0 < g.flow := by
      rw [← hpos]; simpa using h2
    have han : ∃ g ∈ flows, g.flow < 0 := by
      rw [← hneg]; simpa using h3
    refine ⟨⟨fun _ => ⟨h1, hap, han⟩, fun _ => rfl⟩, ⟨fun h => by simp at h, ?_⟩⟩
    rintro (hl | hall | hall)
    · omega
    · rcases hap with ⟨g, hg, hgpos⟩
      exact absurd (hall g hg) (by linarith)
    · rcases han with ⟨g, hg, hgneg⟩
      exact absurd (hall g hg) (by linarith)

/-! ## Claims about Bond construction -/

/-- Claim C5: Bond construction raises a validation error whenever the
amortization percentages do not sum to exactly 100 or the amortization
amounts do not sum to exactly the initial notional (exact equality, no
epsilon tolerance). -/
theorem bond_sum_mismatch_rejected (b : Bond)
    (h : (b.amortizations.map AmortizationScheduleEntry.value_prc).sum ≠ 100 ∨
         (b.amortizations.map AmortizationScheduleEntry.value).sum ≠ b.initial_notional) :
    ¬ b.post_init_ok := by
  intro hok
  rcases h with h | h
  · exact h hok.2.2.2.1
  · exact h hok.2.2.2.2

/-- A bond with a single amortization entry `(date 10, 10.0 percent, 100.0)`
against an initial notional of 1000, the rejection example of the claim. -/
def badAmortBond : Bond := ⟨[], [⟨10, 10, 100⟩], none, none, 1000, "RUB"⟩

theorem bond_sum_mismatch_rejected_witness : ¬ badAmortBond.post_init_ok :=
  bond_sum_mismatch_rejected badAmortBond (Or.inl (by norm_num [badAmortBond]))

/-- Claim C6: Bond construction raises a validation error whenever the
amortization dates, the coupon dates or the coupon start dates fail to be
strictly ascending; in particular two equal consecutive dates are rejected. -/
theorem bond_nonascending_rejected (b : Bond)
    (h : ¬ (b.amortizations.map AmortizationScheduleEntry.amort_date).Pairwise (· < ·) ∨
         ¬ (b.coupons.map CouponScheduleEntry.coupon_date).Pairwise (· < ·) ∨
         ¬ (b.coupons.map CouponScheduleEntry.start_date).Pairwise (· < ·)) :
    ¬ b.post_init_ok := by
  intro hok
  rcases h with h | h | h
  · exact h ((dates_ascending_ok_iff_pairwise _).mp hok.1)
  · exact h ((dates_ascending_ok_iff_pairwise _).mp hok.2.1)
  · exact h ((dates_ascending_ok_iff_pairwise _).mp hok.2.2.1)

/-- A bond whose two amortization entries carry the same date. -/
def dupDateBond : Bond := ⟨[], [⟨100, 50, 500⟩, ⟨100, 50, 500⟩], none, none, 1000, "RUB"⟩

theorem bond_nonascending_rejected_witness : ¬ dupDateBond.post_init_ok :=
  bond_nonascending_rejected dupDateBond (Or.inl (by simp [dupDateBond]))

/-! ## Claims about notional_on_date -/

/-- `notional_on_date` unfolded on a non-empty amortization schedule. -/
lemma notional_on_date_cons (b : Bond) (a : AmortizationScheduleEntry)
    (rest : List AmortizationScheduleEntry) (hams : b.amortizations = a :: rest) (d : ℤ) :
    b.notional_on_date d =
      if d < a.amort_date then b.initial_notional
      else if ((a :: rest).getLast (List.cons_ne_nil a rest)).amort_date < d then 0
      else b.initial_notional * (1 - accum_prc_before (a :: rest) d / 100) := by
  unfold Bond.notional_on_date
  rw [hams]

/-- Claim C2: for a valid bond, `notional_on_date d` returns the initial
notional before the first amortization date, `0` strictly after the last
one, and otherwise the initial notional scaled by `1 - P/100` where `P`
sums `value_prc` over exactly the entries with `amort_date < d` (an
amortization on `d` itself is excluded). -/
theorem notional_on_date_cases (b : Bond) (hv : b.valid) (d : ℤ)
    (a₀ aL : AmortizationScheduleEntry)
    (h0 : b.amortizations.head? = some a₀)
    (hL : b.amortizations.getLast? = some aL) :
    (d < a₀.amort_date → b.notional_on_date d = b.initial_notional) ∧
    (aL.amort_date < d → b.notional_on_date d = 0) ∧
    (a₀.amort_date ≤ d → d ≤ aL.amort_date →
      b.notional_on_date d = b.initial_notional *
        (1 - ((b.amortizations.filter fun am => decide (am.amort_date < d)).map
          AmortizationScheduleEntry.value_prc).sum / 100)) := by
  obtain ⟨a, rest, hams⟩ := List.exists_cons_of_ne_nil (b.valid_amortizations_ne_nil hv)
  have hsorted := b.valid_amort_pairwise hv
  rw [hams] at hsorted
  have ha0 : a₀ = a := by
    rw [hams] at h0
    simpa using h0.symm
  have haL : aL = (a :: rest).getLast (List.cons_ne_nil a rest) := by
    have hgl : (a :: rest).getLast? =
        some ((a :: rest).getLast (List.cons_ne_nil a rest)) :=
      List.getLast?_eq_getLast _ _
    rw [hams, hgl] at hL
    simpa using hL.symm
  have hhead_le := head_amort_le_getLast a rest hsorted
  refine ⟨?_, ?_, ?_⟩
  · intro hlt
    rw [notional_on_date_cons b a rest hams d, if_pos (ha0 ▸ hlt)]
  · intro hgt
    rw [haL] at hgt
    have hnot1 : ¬ d < a.amort_date := by omega
    rw [notional_on_date_cons b a rest hams d, if_neg hnot1, if_pos hgt]
  · intro hge hle
    rw [ha0] at hge
    rw [haL] at hle
    have hnot1 : ¬ d < a.amort_date := by omega
    have hnot2 : ¬ ((a :: rest).getLast (List.cons_ne_nil a rest)).amort_date < d := by omega
    rw [notional_on_date_cons b a rest hams d, if_neg hnot1, if_neg hnot2,
      accum_prc_before, takeWhile_lt_eq_filter _ hsorted d, hams]

theorem notional_on_date_cases_witness : sampleBond.notional_on_date 150 = 600 := by
  have h := notional_on_date_cases sampleBond sampleBond_valid 150 sampleAmort1 sampleAmort2
    rfl rfl
  rw [h.2.2 (by norm_num [sampleAmort1]) (by norm_num [sampleAmort2])]
  norm_num [sampleBond, sampleAmort1, sampleAmort2]

/-- Claim C9: for a valid bond, `notional_on_date` is monotone non-increasing
in the date, and always lies between `0` and the initial notional. -/
theorem notional_on_date_monotone_bounded (b : Bond) (hv : b.valid) :
    (∀ d₁ d₂ : ℤ, d₁ ≤ d₂ → b.notional_on_date d₂ ≤ b.notional_on_date d₁) ∧
    (∀ d : ℤ, 0 ≤ b.notional_on_date d ∧ b.notional_on_date d ≤ b.initial_notional) := by
  obtain ⟨a, rest, hams⟩ := List.exists_cons_of_ne_nil (b.valid_amortizations_ne_nil hv)
  have hsorted := b.valid_amort_pairwise hv
  rw [hams] at hsorted
  have hpos : ∀ x ∈ (a :: rest), 0 ≤ x.value_prc := by
    intro x hx
    exact (hv.2.1 x (hams ▸ hx)).2
  have hvalpos : ∀ x ∈ (a :: rest), 0 ≤ x.value := by
    intro x hx
    exact (hv.2.1 x (hams ▸ hx)).1
  have hsum : ((a :: rest).map AmortizationScheduleEntry.value_prc).sum = 100 := by
    have h := hv.2.2.2.2.2.1
    rwa [hams] at h
  have hvsum : ((a :: rest).map AmortizationScheduleEntry.value).sum = b.initial_notional := by
    have h := hv.2.2.2.2.2.2
    rwa [hams] at h
  have hinit : 0 ≤ b.initial_notional := by
    rw [← hvsum]
    apply List.sum_nonneg
    intro x hx
    rcases List.mem_map.mp hx with ⟨y, hy, rfl⟩
    exact hvalpos y hy
  have hbounds : ∀ d : ℤ, 0 ≤ b.notional_on_date d ∧ b.notional_on_date d ≤ b.initial_notional := by
    intro d
    rw [notional_on_date_cons b a rest hams d]
    split_ifs with h1 h2
    · exact ⟨hinit, le_refl _⟩
    · exact ⟨le_refl _, hinit⟩
    · have hA0 : 0 ≤ accum_prc_before (a :: rest) d := accum_prc_before_nonneg _ hpos d
      have hA100 : accum_prc_before (a :: rest) d ≤ 100 := by
        have h := accum_prc_before_le_sum (a :: rest) hpos d
        rwa [hsum] at h
      constructor
      · apply mul_nonneg hinit
        linarith
      · calc b.initial_notional * (1 - accum_prc_before (a :: rest) d / 100)
            ≤ b.initial_notional * 1 := by
              apply mul_le_mul_of_nonneg_left _ hinit
              linarith
          _ = b.initial_notional := mul_one _
  refine ⟨?_, hbounds⟩
  intro d₁ d₂ hd
  by_cases h1 : d₁ < a.amort_date
  · have e1 : b.notional_on_date d₁ = b.initial_notional := by
      rw [notional_on_date_cons b a rest hams d₁, if_pos h1]
    rw [e1]
    exact (hbounds d₂).2
  · by_cases h2 : ((a :: rest).getLast (List.cons_ne_nil a rest)).amort_date < d₁
    · have e1 : b.notional_on_date d₁ = 0 := by
        rw [notional_on_date_cons b a rest hams d₁, if_neg h1, if_pos h2]
      have h2b : ((a :: rest).getLast (List.cons_ne_nil a rest)).amort_date < d₂ :=
        lt_of_lt_of_le h2 hd
      have h1b : ¬ d₂ < a.amort_date := by omega
      have e2 : b.notional_on_date d₂ = 0 := by
        rw [notional_on_date_cons b a rest hams d₂, if_neg h1b, if_pos h2b]
      rw [e1, e2]
    · have e1 : b.notional_on_date d₁ =
          b.initial_notional * (1 - accum_prc_before (a :: rest) d₁ / 100) := by
        rw [notional_on_date_cons b a rest hams d₁, if_neg h1, if_neg h2]
      by_cases h3 : ((a :: rest).getLast (List.cons_ne_nil a rest)).amort_date < d₂
      · have h1b : ¬ d₂ < a.amort_date := by omega
        have e2 : b.notional_on_date d₂ = 0 := by
          rw [notional_on_date_cons b a rest hams d₂, if_neg h1b, if_pos h3]
        rw [e2]
        exact (hbounds d₁).1
      · have h1b : ¬ d₂ < a.amort_date := by omega
        have e2 : b.notional_on_date d₂ =
            b.initial_notional * (1 - accum_prc_before (a :: rest) d₂ / 100) := by
          rw [notional_on_date_cons b a rest hams d₂, if_neg h1b, if_neg h3]
        rw [e1, e2]
        have hmono := accum_prc_before_mono (a :: rest) hpos d₁ d₂ hd
        apply mul_le_mul_of_nonneg_left _ hinit
        linarith

theorem notional_on_date_monotone_bounded_witness :
    sampleBond.notional_on_date 200 ≤ sampleBond.notional_on_date 100 :=
  (notional_on_date_monotone_bounded sampleBond sampleBond_valid).1 100 200 (by norm_num)

/-! ## Claims about accrued_coupon_on_date -/

/-- One step of the closest-coupon search. -/
lemma closest_coupon_search_cons (dt : ℤ) (prev : Option CouponScheduleEntry)
    (c : CouponScheduleEntry) (rest : List CouponScheduleEntry) :
    closest_coupon_search dt prev (c :: rest) =
      if dt ≤ c.coupon_date then some (prev, c)
      else closest_coupon_search dt (some c) rest := rfl

/-- The closest-coupon search, characterised by a splitting of the coupon
list: when everything before `c` is strictly before `dt` and `c` is not,
the search returns `c` together with the last entry before it (or the
initial `prev` accumulator when `c` is the head). -/
lemma closest_coupon_search_append (dt : ℤ) (prev : Option CouponScheduleEntry)
    (pre post : List CouponScheduleEntry) (c : CouponScheduleEntry)
    (hpre : ∀ p ∈ pre, p.coupon_date < dt) (hc : dt ≤ c.coupon_date) :
    closest_coupon_search dt prev (pre ++ c :: post) =
      some ((match pre.getLast? with
             | none => prev
             | some p => some p), c) := by
  revert hpre
  induction pre generalizing prev with
  | nil =>
    intro hpre
    rw [List.nil_append, closest_coupon_search_cons, if_pos hc]
    rfl
  | cons p pre2 ih =>
    intro hpre
    have hplt : p.coupon_date < dt := hpre p (List.mem_cons_self p pre2)
    have hnot : ¬ dt ≤ p.coupon_date := by omega
    rw [List.cons_append, closest_coupon_search_cons, if_neg hnot,
      ih (some p) (fun q hq => hpre q (List.mem_cons_of_mem _ hq))]
    cases pre2 with
    | nil => rfl
    | cons q rest2 =>
      rw [List.getLast?_cons_cons,
        List.getLast?_eq_getLast (q :: rest2) (List.cons_ne_nil q rest2)]

/-- Claim C3: for a valid bond and a date `dt` that still has a coupon at or
after it, `accrued_coupon_on_date` returns
`round2(notional_on_date dt * yearly_prc/100 * (dt - accrual_start)/365)`,
where `yearly_prc` comes from the first coupon with `coupon_date ≥ dt`, and
the accrual start is that coupon's own `start_date` when it heads the
schedule and otherwise the `coupon_date` of the immediately preceding
coupon entry. -/
theorem accrued_coupon_on_date_formula (b : Bond) (hv : b.valid) (dt : ℤ)
    (pre post : List CouponScheduleEntry) (c : CouponScheduleEntry)
    (hsplit : b.coupons = pre ++ c :: post)
    (hpre : ∀ p ∈ pre, p.coupon_date < dt)
    (hc : dt ≤ c.coupon_date) :
    b.accrued_coupon_on_date dt = Except.ok (round2 (b.notional_on_date dt *
      (c.yearly_prc / 100) *
      (((dt - (match pre.getLast? with
               | none => c.start_date
               | some p => p.coupon_date) : ℤ) : ℚ) / YEAR_BASE))) := by
  unfold Bond.accrued_coupon_on_date
  rw [hsplit, closest_coupon_search_append dt none pre post c hpre hc]
  cases hgl : pre.getLast? with
  | none => simp only [hgl]
  | some p => simp only [hgl]

lemma sampleBond_notional_150 : sampleBond.notional_on_date 150 = 600 := by
  rw [notional_on_date_cons sampleBond sampleAmort1 [sampleAmort2] rfl 150]
  norm_num [sampleBond, sampleAmort1, sampleAmort2, accum_prc_before, List.takeWhile]

theorem accrued_coupon_on_date_formula_witness :
    sampleBond.accrued_coupon_on_date 150 = Except.ok (329 / 50) := by
  rw [accrued_coupon_on_date_formula sampleBond sampleBond_valid 150
    [sampleCoupon1] [] sampleCoupon2 rfl (by decide) (by decide)]
  rw [sampleBond_notional_150]
  norm_num [sampleCoupon1, sampleCoupon2, round2, roundHalfEven, YEAR_BASE]

/-- Claim C4 (code bug): on the valid sample bond, for the date 300 that
lies strictly after every coupon date, `accrued_coupon_on_date` does not
return 0: the tuple unpacking of the `None` returned by
`next(filter(...), None)` raises `TypeError`, making the
`if closest_coupon is None: return 0` line unreachable. -/
theorem accrued_coupon_past_schedule_type_error :
    sampleBond.valid ∧ (∀ c ∈ sampleBond.coupons, c.coupon_date < 300) ∧
    sampleBond.accrued_coupon_on_date 300 = Except.error PyError.typeError :=
  ⟨sampleBond_valid, by decide, rfl⟩

/-! ## Claim about yield_to_maturity flow assembly -/

/-- Claim C7: for a valid bond with `price_buy_prc ≥ 0` and
`date_buy ≤ date_settle`, the cash-flow list assembled by
`yield_to_maturity` (with no caller-supplied accrued coupon) consists of a
single negative flow at `date_buy` equal to
`price_buy_prc/100 * notional_on_date(date_buy) + accrued_coupon` plus the
commission when given — the accrued coupon being computed on the buy date —
followed by the forward coupons and amortizations taken from
`payments_since_date(date_settle)`. -/
theorem ytm_flows_spec (b : Bond) (hv : b.valid) (price_buy_prc : ℚ)
    (date_buy date_settle : ℤ) (coupon_tax_prc commission : Option ℚ) (ac : ℚ)
    (hp : 0 ≤ price_buy_prc) (hd : date_buy ≤ date_settle)
    (hac : b.accrued_coupon_on_date date_buy = Except.ok ac) :
    b.ytm_flows price_buy_prc date_buy date_settle none coupon_tax_prc commission =
      Except.ok (CashFlow.mk date_buy
          (-((price_buy_prc / 100) * b.notional_on_date date_buy + ac + commission.getD 0)) ::
        ((b.payments_since_date date_settle).1.map (fun c =>
            CashFlow.mk c.coupon_date
              (match coupon_tax_prc with
               | none => c.value
               | some tax => c.value * (1 - tax))) ++
         (b.payments_since_date date_settle).2.map (fun am =>
            CashFlow.mk am.amort_date am.value))) := by
  unfold Bond.ytm_flows
  rw [if_neg (not_lt.mpr hp), if_neg (not_lt.mpr hd)]
  rw [hac]
  cases commission with
  | none => simp
  | some comm => simp

lemma sampleBond_accrued_50 : sampleBond.accrued_coupon_on_date 50 = Except.ok (274 / 25) := by
  rw [accrued_coupon_on_date_formula sampleBond sampleBond_valid 50
    [] [sampleCoupon2] sampleCoupon1 rfl (by decide) (by decide)]
  have hn : sampleBond.notional_on_date 50 = 1000 := by
    rw [notional_on_date_cons sampleBond sampleAmort1 [sampleAmort2] rfl 50]
    norm_num [sampleBond, sampleAmort1]
  rw [hn]
  norm_num [sampleCoupon1, round2, roundHalfEven, YEAR_BASE]

theorem ytm_flows_spec_witness :
    sampleBond.ytm_flows 100 50 60 none none none =
      Except.ok (CashFlow.mk 50
          (-((100 / 100) * sampleBond.notional_on_date 50 + 274 / 25 + (none : Option ℚ).getD 0)) ::
        ((sampleBond.payments_since_date 60).1.map (fun c =>
            CashFlow.mk c.coupon_date c.value) ++
         (sampleBond.payments_since_date 60).2.map (fun am =>
            CashFlow.mk am.amort_date am.value))) :=
  ytm_flows_spec sampleBond sampleBond_valid 100 50 60 none none (274 / 25)
    (by norm_num) (by norm_num) sampleBond_accrued_50

end Investments
